import Mathlib

/-!
Shallow embedding of the size-targeting search in `src/src/App.tsx`
(`calculateImageSize` and `processImage`).

Modelling conventions:
* A JPEG encoding produced by `canvas.toDataURL` is represented by the
  length of the base64 payload of the data URL (a natural number), since
  that length is the only attribute of the encoding the program inspects.
* The codec (`canvas.toDataURL` at given canvas dimensions and quality) is
  an uninterpreted oracle `Encode : ℕ → ℕ → ℚ → ℕ` mapping width, height
  and quality to the base64 payload length of the resulting data URL.
* JavaScript numbers are modelled by exact rationals (`ℚ`) for qualities
  and scale factors and by integers (`ℤ`) for kilobyte sizes;
  `Math.floor` becomes `Rat.floor`, `Math.round` (half-up for the
  nonnegative values occurring here) becomes `⌊q + 1/2⌋`.
* Each engine run additionally records the quality argument of every
  encode call, in order, so that properties about the encode calls
  performed can be stated.
-/

namespace SizeFoto

/-- The codec oracle: width, height, quality ↦ base64 payload length of the
encoded data URL. -/
abbrev Encode : Type := ℕ → ℕ → ℚ → ℕ

/-- JavaScript `Math.round` for the nonnegative arguments used here:
round half up. -/
def jsRound (q : ℚ) : ℤ := ⌊q + 1/2⌋

/-- Length of the base64 payload (including padding characters) that encodes
a binary buffer of `n` bytes: `4 * ceil(n / 3)`. -/
def base64Len (n : ℕ) : ℕ := 4 * ((n + 2) / 3)

/-- `calculateImageSize` from App.tsx: given the base64 payload length of a
data URL, returns `Math.round(base64.length * 3 / 4 / 1024)`. -/
def calculateImageSize (base64Length : ℕ) : ℤ :=
  jsRound ((base64Length : ℚ) * 3 / 4 / 1024)

/-- `Math.floor` of a nonnegative rational, as a natural number; used for
`Math.floor(width * scaleFactor)`. -/
def ratFloorNat (q : ℚ) : ℕ := ⌊q⌋.toNat

/-- The user-visible messages `processImage` can set via `setError`. -/
inductive Msg where
  | noImage
  | invalidRange
  | belowMin (lo s : ℤ)
  | aboveMax (hi s : ℤ)
deriving DecidableEq, Repr

/-- The mutable triple `(dataUrl, currentSize)` threaded through the loops,
together with the log of encode-call qualities. -/
structure Acc where
  dataUrl : ℕ
  currentSize : ℤ
  log : List ℚ
deriving DecidableEq, Repr

/-- Stage 1 of `processImage` (App.tsx lines 104–120): progressively enlarge
dimensions by +0.2 scale steps while `currentSize < minSize` and
`scaleFactor < 3.0`, re-encoding at maximum quality. The fuel (11) exceeds
the 10 iterations the scale bound permits, so every exit is decided by the
loop condition exactly as in the source. -/
def enlargeLoop (e : Encode) (w h : ℕ) (lo : ℤ) :
    ℕ → ℚ → Acc → Acc
  | 0, _, a => a
  | fuel + 1, sf, a =>
    if a.currentSize < lo ∧ sf < 3 then
      let sf2 := sf + 1/5
      let d2 := e (ratFloorNat ((w : ℚ) * sf2)) (ratFloorNat ((h : ℚ) * sf2)) 1
      let s2 := calculateImageSize d2
      if lo ≤ s2 then ⟨d2, s2, a.log ++ [1]⟩
      else enlargeLoop e w h lo fuel sf2 ⟨d2, s2, a.log ++ [1]⟩
    else a

/-- The mutable state of the Stage 2 quality bisection
(App.tsx lines 81–87 and 136–185). -/
structure BisectState where
  width : ℕ
  height : ℕ
  minQuality : ℚ
  maxQuality : ℚ
  quality : ℚ
  attempts : ℕ
  dataUrl : ℕ
  currentSize : ℤ
  done : Bool
  log : List ℚ
deriving DecidableEq, Repr

/-- One iteration of the Stage 2 bisection `while` loop
(App.tsx lines 145–185). It is the identity once the loop has exited
(range hit, or 20 attempts reached), so iterating it models the loop. -/
def bisectStep (e : Encode) (lo hi : ℤ) (st : BisectState) : BisectState :=
  if st.done = true ∨ 20 ≤ st.attempts then st
  else
    let attempts := st.attempts + 1
    let d := e st.width st.height st.quality
    let s := calculateImageSize d
    let lg := st.log ++ [st.quality]
    if lo ≤ s ∧ s ≤ hi then
      { st with attempts := attempts, dataUrl := d, currentSize := s,
                done := true, log := lg }
    else
      let st1 : BisectState :=
        if hi < s then
          { st with attempts := attempts, dataUrl := d, currentSize := s,
                    log := lg, maxQuality := st.quality,
                    quality := (st.minQuality + st.quality) / 2 }
        else if s < lo then
          { st with attempts := attempts, dataUrl := d, currentSize := s,
                    log := lg, minQuality := st.quality,
                    quality := (st.quality + st.maxQuality) / 2 }
        else
          { st with attempts := attempts, dataUrl := d, currentSize := s,
                    log := lg }
      if 10 < attempts ∧ hi < s then
        { st1 with
            width := ratFloorNat ((st1.width : ℚ) * (9/10)),
            height := ratFloorNat ((st1.height : ℚ) * (9/10)),
            minQuality := 1/100, maxQuality := 7/10, quality := 3/10 }
      else st1

/-- The state with which `processImage` enters the Stage 2 bisection:
original dimensions, `minQuality = 0.001`, `maxQuality = 100.00`,
`quality = 0.7`, `attempts = 0` (App.tsx lines 136–143). -/
def bisectInit (w h : ℕ) (a : Acc) : BisectState :=
  { width := w, height := h, minQuality := 1/1000, maxQuality := 100,
    quality := 7/10, attempts := 0, dataUrl := a.dataUrl,
    currentSize := a.currentSize, done := false, log := a.log }

/-- The full Stage 2 bisection loop: at most 20 iterations of `bisectStep`
(`maxAttempts = 20`, App.tsx line 87). -/
def bisectRun (e : Encode) (lo hi : ℤ) (st : BisectState) : BisectState :=
  (bisectStep e lo hi)^[20] st

/-- The forced-shrink fallback (App.tsx lines 187–209): shrink dimensions
from the original size in −0.1 scale steps, re-encoding at quality 0.1,
while `currentSize > maxSize` and `scaleFactor > 0.1`. Fuel 9 exceeds the
8 iterations the scale bound permits. -/
def forcedShrink (e : Encode) (origW origH : ℕ) (hi : ℤ) :
    ℕ → ℚ → Acc → Acc
  | 0, _, a => a
  | fuel + 1, sf, a =>
    if hi < a.currentSize ∧ 1/10 < sf then
      let sf2 := sf - 1/10
      let d2 := e (ratFloorNat ((origW : ℚ) * sf2))
                  (ratFloorNat ((origH : ℚ) * sf2)) (1/10)
      let s2 := calculateImageSize d2
      if s2 ≤ hi then ⟨d2, s2, a.log ++ [1/10]⟩
      else forcedShrink e origW origH hi fuel sf2 ⟨d2, s2, a.log ++ [1/10]⟩
    else a

/-- The terminal output of one engine run: the stored processed data URL,
its reported size, the message passed to `setError` (if any), and the log
of encode-call qualities. -/
structure EngineOut where
  dataUrl : ℕ
  sizeKB : ℤ
  err : Option Msg
  log : List ℚ
deriving DecidableEq, Repr

/-- The final reporting step (App.tsx lines 216–229): store the candidate
and set the below-min / above-max message exactly when the achieved size
lies outside the requested range. -/
def finishResult (lo hi : ℤ) (a : Acc) : EngineOut :=
  { dataUrl := a.dataUrl, sizeKB := a.currentSize,
    err := if a.currentSize < lo then some (Msg.belowMin lo a.currentSize)
           else if hi < a.currentSize then some (Msg.aboveMax hi a.currentSize)
           else none,
    log := a.log }

/-- App.tsx lines 134–229, the part of `processImage` after Stage 1: if the
original size exceeds `maxSize`, run the bisection (and, if still too
large, the forced shrink); otherwise take the original encoding
(`dataUrl = originalDataUrl`, `currentSize = originalSize`) — note the
source takes this `else` branch even when Stage 1 just produced an
enlarged candidate. Then report. -/
def mainTail (e : Encode) (w h : ℕ) (lo hi : ℤ)
    (od : ℕ) (os : ℤ) (a : Acc) : EngineOut :=
  if hi < os then
    let st := bisectRun e lo hi (bisectInit w h a)
    let a2 : Acc := ⟨st.dataUrl, st.currentSize, st.log⟩
    let a3 := if hi < a2.currentSize then forcedShrink e w h hi 9 (9/10) a2
              else a2
    finishResult lo hi a3
  else
    finishResult lo hi ⟨od, os, a.log⟩

/-- The search engine of `processImage` (App.tsx lines 71–229), after the
input guards: probe the baseline (native dimensions, quality 1.0); if it is
below `minSize`, run the Stage 1 enlargement, returning early with the
below-min message if the enlargement failed; then continue with
`mainTail`. -/
def runEngine (e : Encode) (w h : ℕ) (lo hi : ℤ) : EngineOut :=
  let od := e w h 1
  let os := calculateImageSize od
  if os < lo then
    let a := enlargeLoop e w h lo 11 1 ⟨0, 0, [1]⟩
    if a.currentSize < lo then
      { dataUrl := a.dataUrl, sizeKB := a.currentSize,
        err := some (Msg.belowMin lo a.currentSize), log := a.log }
    else
      mainTail e w h lo hi od os a
  else
    mainTail e w h lo hi od os ⟨0, 0, [1]⟩

/-- The pieces of React state that `processImage` writes. -/
structure AppState where
  processedImage : Option ℕ
  processedSize : Option ℤ
  error : Option Msg
deriving DecidableEq, Repr

/-- `processImage` (App.tsx lines 57–238): the two input guards (no image
uploaded; `minSize >= maxSize`), then the engine; returns the updated state
together with the list of encode-call qualities (empty = no encode work
performed). -/
def processImage (hasImage : Bool) (e : Encode) (w h : ℕ) (lo hi : ℤ)
    (st : AppState) : AppState × List ℚ :=
  if hasImage = false then ({ st with error := some Msg.noImage }, [])
  else if hi ≤ lo then ({ st with error := some Msg.invalidRange }, [])
  else
    let r := runEngine e w h lo hi
    (⟨some r.dataUrl, some r.sizeKB, r.err⟩, r.log)

/-- A constant-output codec oracle whose encodings measure 51 KB, used as a
concrete instance in witnesses. -/
def encConst : Encode := fun _ _ _ => 70000

/-- A codec oracle realising Scenario B of the spec: the baseline (native
size, encoded widths up to 100) measures 10 KB, any enlarged encoding
measures 60 KB. -/
def exC1 : Encode := fun w _ _ => if w ≤ 100 then 13654 else 81920

/-- A codec oracle for an incompressible image: every encoding measures
500 KB regardless of dimensions and quality. -/
def exBig : Encode := fun _ _ _ => 682667

/-- A codec oracle whose baseline measures 500 KB, whose encoding at
quality `1007/20` measures 75 KB, and whose other encodings measure 0 KB;
it drives the bisection through a too-small outcome at quality `0.7`. -/
def exC7 : Encode := fun _ _ q => if q = 1 then 682667 else if q = 1007/20 then 102400 else 0

/-- The width `qHigh − qLow` of the bracketing interval of the bisection. -/
def bWidth (st : BisectState) : ℚ := st.maxQuality - st.minQuality

/-- The stuck-detection sub-rule of App.tsx lines 175–184 fires at state
`st`: the loop is still running, this iteration has `attempts > 10`, and
the size measured this iteration is still above `maxSize`. -/
def stuckFires (e : Encode) (hi : ℤ) (st : BisectState) : Prop :=
  st.done = false ∧ st.attempts < 20 ∧ 10 < st.attempts + 1 ∧
    hi < calculateImageSize (e st.width st.height st.quality)

instance stuckFiresDecidable (e : Encode) (hi : ℤ) (st : BisectState) :
    Decidable (stuckFires e hi st) := by
  unfold stuckFires; infer_instance

/-- Internal consistency of an accumulator: the stored size is the
estimator applied to the stored data URL. -/
def Acc.ok (a : Acc) : Prop := a.currentSize = calculateImageSize a.dataUrl

unseal Rat.mul Rat.inv Rat.add Rat.sub in
theorem initAcc_ok : Acc.ok ⟨0, 0, [1]⟩ := by
  show (0 : ℤ) = calculateImageSize 0
  decide

theorem enlargeLoop_ok (e : Encode) (w h : ℕ) (lo : ℤ) :
    ∀ (fuel : ℕ) (sf : ℚ) (a : Acc), a.ok → (enlargeLoop e w h lo fuel sf a).ok := by
  intro fuel
  induction fuel with
  | zero => intro sf a ha; simpa [enlargeLoop] using ha
  | succ n ih =>
    intro sf a ha
    simp only [enlargeLoop]
    split_ifs with h1 h2
    · exact rfl
    · exact ih _ _ rfl
    · exact ha

theorem forcedShrink_ok (e : Encode) (ow oh : ℕ) (hi : ℤ) :
    ∀ (fuel : ℕ) (sf : ℚ) (a : Acc), a.ok → (forcedShrink e ow oh hi fuel sf a).ok := by
  intro fuel
  induction fuel with
  | zero => intro sf a ha; simpa [forcedShrink] using ha
  | succ n ih =>
    intro sf a ha
    simp only [forcedShrink]
    split_ifs with h1 h2
    · exact rfl
    · exact ih _ _ rfl
    · exact ha

theorem bisectStep_ok (e : Encode) (lo hi : ℤ) (st : BisectState)
    (hst : st.currentSize = calculateImageSize st.dataUrl) :
    (bisectStep e lo hi st).currentSize
      = calculateImageSize (bisectStep e lo hi st).dataUrl := by
  unfold bisectStep
  dsimp only
  split_ifs <;> first | exact hst | rfl

theorem bisectIterate_ok (e : Encode) (lo hi : ℤ) (n : ℕ) :
    ∀ st : BisectState, st.currentSize = calculateImageSize st.dataUrl →
      ((bisectStep e lo hi)^[n] st).currentSize
        = calculateImageSize ((bisectStep e lo hi)^[n] st).dataUrl := by
  induction n with
  | zero => intro st hst; exact hst
  | succ k ih =>
    intro st hst
    rw [Function.iterate_succ_apply]
    exact ih _ (bisectStep_ok e lo hi st hst)

theorem mainTail_ok (e : Encode) (w h : ℕ) (lo hi : ℤ) (od : ℕ) (os : ℤ) (a : Acc)
    (hos : os = calculateImageSize od) (ha : a.ok) :
    (mainTail e w h lo hi od os a).sizeKB
      = calculateImageSize (mainTail e w h lo hi od os a).dataUrl := by
  unfold mainTail bisectRun
  dsimp only
  split_ifs with h1 h2
  · exact forcedShrink_ok e w h hi 9 (9/10) _
      (bisectIterate_ok e lo hi 20 (bisectInit w h a) ha)
  · exact bisectIterate_ok e lo hi 20 (bisectInit w h a) ha
  · exact hos

theorem finishResult_err_iff (lo hi : ℤ) (a : Acc) :
    (finishResult lo hi a).err = none ↔
      lo ≤ (finishResult lo hi a).sizeKB ∧ (finishResult lo hi a).sizeKB ≤ hi := by
  unfold finishResult
  dsimp only
  split_ifs with h1 h2 <;> simp <;> omega

theorem mainTail_err_iff (e : Encode) (w h : ℕ) (lo hi : ℤ) (od : ℕ) (os : ℤ) (a : Acc) :
    (mainTail e w h lo hi od os a).err = none ↔
      lo ≤ (mainTail e w h lo hi od os a).sizeKB ∧
        (mainTail e w h lo hi od os a).sizeKB ≤ hi := by
  unfold mainTail
  dsimp only
  split_ifs with h1 h2
  · exact finishResult_err_iff lo hi _
  · exact finishResult_err_iff lo hi _
  · exact finishResult_err_iff lo hi _

theorem runEngine_err_iff (e : Encode) (w h : ℕ) (lo hi : ℤ) :
    (runEngine e w h lo hi).err = none ↔
      lo ≤ (runEngine e w h lo hi).sizeKB ∧ (runEngine e w h lo hi).sizeKB ≤ hi := by
  unfold runEngine
  dsimp only
  split_ifs with h1 h2
  · simp
    omega
  · exact mainTail_err_iff e w h lo hi _ _ _
  · exact mainTail_err_iff e w h lo hi _ _ _

theorem bisectStep_attempts_le (e : Encode) (lo hi : ℤ) (st : BisectState)
    (h : st.attempts ≤ 20) : (bisectStep e lo hi st).attempts ≤ 20 := by
  unfold bisectStep
  by_cases hg : (st.done = true ∨ 20 ≤ st.attempts)
  · rw [if_pos hg]; exact h
  · rw [if_neg hg]
    push_neg at hg
    have hlt : st.attempts + 1 ≤ 20 := by omega
    dsimp only
    split_ifs <;> exact hlt

unseal Rat.mul Rat.inv Rat.add Rat.sub in
/-- C1: if the baseline is below min and Stage 1 enlargement reaches a
candidate of size at least min before the 3.0 scale bound, the source does
NOT return that candidate: the subsequent `originalSize > maxSize` test is
false, so the else branch overwrites the result with the baseline encoding
and reports the below-minimum message. Concretely: baseline 10 KB, first
enlargement 60 KB, range [50,100] — the engine returns 10 KB with the
below-min error instead of the 60 KB candidate. -/
theorem claim1_code_bug_run :
    calculateImageSize (exC1 100 100 1) = 10 ∧
    (enlargeLoop exC1 100 100 50 11 1 ⟨0, 0, [1]⟩).currentSize = 60 ∧
    (runEngine exC1 100 100 50 100).sizeKB = 10 ∧
    (runEngine exC1 100 100 50 100).err = some (Msg.belowMin 50 10) := by decide

unseal Rat.mul Rat.inv Rat.add Rat.sub in
/-- C2 counterexample: for a 1535-byte buffer the base64 payload has
length 2048 (one padding character), and the estimator reports
`round(2048·3/4/1024) = 2` while `round(1535/1024) = 1`: the size computed
from the base64 text length differs from the size computed from the true
byte length. -/
theorem claim2_counterexample :
    calculateImageSize (base64Len 1535) ≠ jsRound ((1535 : ℚ) / 1024) := by decide

/-- C2 amended: the estimator computes `round(base64Length·3/4/1024)` from
the base64 text length; this agrees with `round(byteLength/1024)` exactly
when the byte length is a multiple of 3 (no base64 padding), and can
overestimate otherwise. -/
theorem claim2_amended (n : ℕ) (h : n % 3 = 0) :
    calculateImageSize (base64Len n) = jsRound ((n : ℚ) / 1024) := by
  obtain ⟨k, rfl⟩ := Nat.dvd_of_mod_eq_zero h
  have hb : base64Len (3 * k) = 4 * k := by unfold base64Len; omega
  rw [hb]
  unfold calculateImageSize jsRound
  congr 1
  push_cast
  ring

/-- C2 amended, witness at a padding-free byte length. -/
theorem claim2_amended_witness :
    3072 % 3 = 0 ∧ calculateImageSize (base64Len 3072) = jsRound ((3072 : ℚ) / 1024) :=
  ⟨by decide, claim2_amended 3072 (by decide)⟩

/-- C3: for an uploaded image and a valid range, the engine always stores
an output data URL and a reported size, and the error message is absent
exactly when the achieved size lies inside the requested range — an
unreachable range is communicated via the message, never by producing no
output. -/
theorem claim3_always_output (e : Encode) (w h : ℕ) (lo hi : ℤ) (st : AppState)
    (hlt : lo < hi) :
    (processImage true e w h lo hi st).1.processedImage
        = some (runEngine e w h lo hi).dataUrl ∧
    (processImage true e w h lo hi st).1.processedSize
        = some (runEngine e w h lo hi).sizeKB ∧
    ((runEngine e w h lo hi).err = none ↔
      lo ≤ (runEngine e w h lo hi).sizeKB ∧ (runEngine e w h lo hi).sizeKB ≤ hi) := by
  refine ⟨?_, ?_, runEngine_err_iff e w h lo hi⟩
  · simp [processImage, not_le.mpr hlt]
  · simp [processImage, not_le.mpr hlt]

unseal Rat.mul Rat.inv Rat.add Rat.sub in
/-- C3 witness at a concrete oracle and range. -/
theorem claim3_witness :
    (processImage true encConst 100 100 50 100 ⟨none, none, none⟩).1.processedImage
        = some (runEngine encConst 100 100 50 100).dataUrl ∧
    (processImage true encConst 100 100 50 100 ⟨none, none, none⟩).1.processedSize
        = some (runEngine encConst 100 100 50 100).sizeKB ∧
    ((runEngine encConst 100 100 50 100).err = none ↔
      50 ≤ (runEngine encConst 100 100 50 100).sizeKB ∧
        (runEngine encConst 100 100 50 100).sizeKB ≤ 100) :=
  claim3_always_output encConst 100 100 50 100 ⟨none, none, none⟩ (by decide)

/-- C4: with an image uploaded and `minSize ≥ maxSize`, `processImage`
sets the invalid-range error and performs zero encode calls (empty
encode log), leaving the rest of the state unchanged. -/
theorem claim4_invalid_range (e : Encode) (w h : ℕ) (lo hi : ℤ) (st : AppState)
    (hge : hi ≤ lo) :
    processImage true e w h lo hi st
      = ({ st with error := some Msg.invalidRange }, []) := by
  simp [processImage, hge]

/-- C4 witness: range [100,50]. -/
theorem claim4_witness :
    processImage true encConst 100 100 100 50 ⟨none, none, none⟩
      = (⟨none, none, some Msg.invalidRange⟩, []) :=
  claim4_invalid_range encConst 100 100 100 50 ⟨none, none, none⟩ (by decide)

/-- C5: when the baseline encoding already lies in `[min, max]`, the
engine returns exactly that encoding with no message and with a single
encode call (the baseline probe): no search iterations are performed. -/
theorem claim5_baseline_within_range (e : Encode) (w h : ℕ) (lo hi : ℤ)
    (h1 : lo ≤ calculateImageSize (e w h 1))
    (h2 : calculateImageSize (e w h 1) ≤ hi) :
    runEngine e w h lo hi
      = ⟨e w h 1, calculateImageSize (e w h 1), none, [1]⟩ := by
  simp [runEngine, mainTail, finishResult, not_lt.mpr h1, not_lt.mpr h2]

unseal Rat.mul Rat.inv Rat.add Rat.sub in
/-- C5 witness: a 51 KB baseline inside [50,100]. -/
theorem claim5_witness :
    runEngine encConst 100 100 50 100 = ⟨70000, 51, none, [1]⟩ :=
  claim5_baseline_within_range encConst 100 100 50 100 (by decide) (by decide)

unseal Rat.mul Rat.inv Rat.add Rat.sub in
/-- C6 counterexample: with an incompressible image (every encoding
500 KB) and range [50,100], the bracketing interval has width
`699/512000` after 10 bisection iterations but width `69/100` after 11:
the stuck-detection reset of iteration 11 widens `qHigh − qLow`, so the
width is not non-increasing across all iterations. -/
theorem claim6_counterexample :
    bWidth ((bisectStep exBig 50 100)^[10] (bisectInit 100 100 ⟨0, 0, [1]⟩))
      < bWidth ((bisectStep exBig 50 100)^[11] (bisectInit 100 100 ⟨0, 0, [1]⟩)) := by
  decide

/-- C6 amended: across bisection iterations in which the stuck-detection
sub-rule does not fire, the interval width `qHigh − qLow` is
non-increasing (given the bracketing invariant `qLow ≤ quality ≤ qHigh`);
iterations in which the sub-rule fires reset the interval to
`[0.01, 0.7]` and may widen it. -/
theorem claim6_amended (e : Encode) (lo hi : ℤ) (st : BisectState)
    (h1 : st.minQuality ≤ st.quality) (h2 : st.quality ≤ st.maxQuality)
    (h3 : ¬ stuckFires e hi st) :
    bWidth (bisectStep e lo hi st) ≤ bWidth st := by
  unfold bisectStep
  by_cases hg : (st.done = true ∨ 20 ≤ st.attempts)
  · rw [if_pos hg]
  · rw [if_neg hg]
    push_neg at hg
    dsimp only
    split_ifs with hin hstuck hbig hsmall hstuck2 hbig2
    · exact le_refl _
    all_goals try
      (exact absurd ⟨Bool.not_eq_true st.done ▸ hg.1, by omega, by omega, by
        first | exact hstuck.2 | exact hstuck2.2⟩ h3)
    · show st.quality - st.minQuality ≤ st.maxQuality - st.minQuality
      linarith
    · show st.maxQuality - st.quality ≤ st.maxQuality - st.minQuality
      linarith
    · exact le_refl _

unseal Rat.mul Rat.inv Rat.add Rat.sub in
/-- C6 amended, witness at the first bisection iteration of the
incompressible-image run. -/
theorem claim6_amended_witness :
    bWidth (bisectStep exBig 50 100 (bisectInit 100 100 ⟨0, 0, [1]⟩))
      ≤ bWidth (bisectInit 100 100 ⟨0, 0, [1]⟩) :=
  claim6_amended exBig 50 100 (bisectInit 100 100 ⟨0, 0, [1]⟩)
    (by decide) (by decide) (by decide)

unseal Rat.mul Rat.inv Rat.add Rat.sub in
/-- C7: because `maxQuality` is initialised to `100.00`, a too-small
outcome at the first bisection iteration sets
`quality = (0.7 + 100)/2 = 50.35`, and the next encode call is performed
at quality `50.35 ∉ (0,1]`: the encode-call log of a concrete engine run
contains the quality `1007/20 > 1`. -/
theorem claim7_code_bug_run :
    (1007/20 : ℚ) ∈ (runEngine exC7 100 100 50 100).log ∧ (1 : ℚ) < 1007/20 := by
  decide

/-- C8: the Stage 2 bisection never runs more than the configured cap of
20 iterations: starting from the engine entry state, no matter how often
the step function is applied, the iteration counter never exceeds 20. -/
theorem claim8_bisection_bounded (e : Encode) (lo hi : ℤ) (w h : ℕ) (a : Acc) (n : ℕ) :
    ((bisectStep e lo hi)^[n] (bisectInit w h a)).attempts ≤ 20 := by
  have H : ∀ (m : ℕ) (st : BisectState), st.attempts ≤ 20 →
      ((bisectStep e lo hi)^[m] st).attempts ≤ 20 := by
    intro m
    induction m with
    | zero => intro st hst; exact hst
    | succ k ih =>
      intro st hst
      rw [Function.iterate_succ_apply]
      exact ih _ (bisectStep_attempts_le e lo hi st hst)
  exact H n _ (Nat.zero_le 20)

/-- C9: on every terminal path of the engine (baseline, enlargement,
bisection, forced shrink), the reported `sizeKB` equals the estimator
applied to the returned data URL: re-measuring the output reproduces the
reported size. -/
theorem claim9_size_consistent (e : Encode) (w h : ℕ) (lo hi : ℤ) :
    (runEngine e w h lo hi).sizeKB
      = calculateImageSize (runEngine e w h lo hi).dataUrl := by
  unfold runEngine
  dsimp only
  split_ifs with h1 h2
  · exact enlargeLoop_ok e w h lo 11 1 ⟨0, 0, [1]⟩ initAcc_ok
  · exact mainTail_ok e w h lo hi _ _ _ rfl
      (enlargeLoop_ok e w h lo 11 1 ⟨0, 0, [1]⟩ initAcc_ok)
  · exact mainTail_ok e w h lo hi _ _ _ rfl initAcc_ok

/-- C10: when `processImage` is invoked with no uploaded image or with
`minSize ≥ maxSize`, it only sets the corresponding error message: the
stored processed image and size are unchanged and no encode call is
performed. -/
theorem claim10_guard_atomic (hasImage : Bool) (e : Encode) (w h : ℕ) (lo hi : ℤ)
    (st : AppState) (hrej : hasImage = false ∨ hi ≤ lo) :
    (processImage hasImage e w h lo hi st).1.processedImage = st.processedImage ∧
    (processImage hasImage e w h lo hi st).1.processedSize = st.processedSize ∧
    (processImage hasImage e w h lo hi st).2 = [] ∧
    (processImage hasImage e w h lo hi st).1.error
      = some (if hasImage then Msg.invalidRange else Msg.noImage) := by
  cases hasImage with
  | false => simp [processImage]
  | true =>
    rcases hrej with him | hr
    · simp at him
    · simp [processImage, hr]

/-- C10 witness: no image uploaded, previously stored result untouched. -/
theorem claim10_witness :
    (processImage false encConst 100 100 50 100 ⟨some 7, some 8, none⟩).1.processedImage
        = some 7 ∧
    (processImage false encConst 100 100 50 100 ⟨some 7, some 8, none⟩).1.processedSize
        = some 8 ∧
    (processImage false encConst 100 100 50 100 ⟨some 7, some 8, none⟩).2 = [] ∧
    (processImage false encConst 100 100 50 100 ⟨some 7, some 8, none⟩).1.error
      = some Msg.noImage :=
  claim10_guard_atomic false encConst 100 100 50 100 ⟨some 7, some 8, none⟩ (Or.inl rfl)

end SizeFoto
